import Mathlib

/-!
Verification of the PersonalML labeling and backtesting core.

Shallow embedding conventions:
* Python floats become exact rationals (ℚ); timestamps become Int.
* Python `None` / non-finite values become `Option.none` (the sources route
  every float through `safe_float`, which maps NaN/inf to `None`).
* `bisect.bisect_left` / `bisect.bisect_right` are embedded as linear scans,
  which agree with the binary-search versions on the sorted lists the sources
  always pass them (`load_symbol_rows` sorts, `build_context_index` sorts).
* Python `int()` (truncation toward zero) is `pyInt`.
-/

namespace PersonalML

/-- Python `int(q)`: truncation toward zero. -/
def pyInt (q : ℚ) : Int :=
  if q < 0 then ⌈q⌉ else ⌊q⌋

/-- `bisect.bisect_left xs x` on a sorted list: index of the first element
that is not `< x` (linear form). -/
def bisectLeft : List Int → Int → Nat
  | [], _ => 0
  | t :: ts, x => if t < x then bisectLeft ts x + 1 else 0

/-- `bisect.bisect_right xs x` on a sorted list: index of the first element
that is `> x` (linear form). -/
def bisectRight : List Int → Int → Nat
  | [], _ => 0
  | t :: ts, x => if x < t then 0 else bisectRight ts x + 1

/-- Dict lookup on an association list; insertion is modelled by consing,
so the most recent binding for a key shadows older ones. -/
def lookupKey {α : Type} (s : String) : List (String × α) → Option α
  | [] => none
  | (a, v) :: rest => if s = a then some v else lookupKey s rest

/-! ## labeler.py — horizon return labeler -/

/-- One per-symbol row written by `stream_snapshots_to_tmp` and read back by
`load_symbol_rows` in labeler.py: `(time, price, bid, ask, funding)`.
`bid`/`ask`/`funding` are `None` when absent or non-finite. -/
structure SnapRow where
  time : Int
  price : ℚ
  bid : Option ℚ
  ask : Option ℚ
  funding : Option ℚ
deriving DecidableEq

/-- labeler.py `pick_price`: use `value` when present and positive, else the
fallback price. -/
def pick_price (value : Option ℚ) (fallback : ℚ) : ℚ :=
  match value with
  | some v => if v > 0 then v else fallback
  | none => fallback

/-- The tuple returned by labeler.py `compute_execution_returns`. -/
structure ExecReturns where
  midReturnPct : ℚ
  longReturnPct : ℚ
  shortReturnPct : ℚ
  entryBid : ℚ
  entryAsk : ℚ
  targetBid : ℚ
  targetAsk : ℚ
deriving DecidableEq

/-- labeler.py `compute_execution_returns`. -/
def compute_execution_returns (entry_price : ℚ) (entry_bid entry_ask : Option ℚ)
    (target_price : ℚ) (target_bid target_ask : Option ℚ) (cost_frac : ℚ) : ExecReturns :=
  let eb := pick_price entry_bid entry_price
  let ea := pick_price entry_ask entry_price
  let tb := pick_price target_bid target_price
  let ta := pick_price target_ask target_price
  let mid := (target_price - entry_price) / entry_price * 100
  let long_entry := ea * (1 + cost_frac)
  let long_exit := tb * (1 - cost_frac)
  let long := (long_exit - long_entry) / long_entry * 100
  let short_entry := eb * (1 - cost_frac)
  let short_exit := ta * (1 + cost_frac)
  let short := (short_entry - short_exit) / short_entry * 100
  ⟨mid, long, short, eb, ea, tb, ta⟩

/-- labeler.py `compute_funding_adjust_pct`. -/
def compute_funding_adjust_pct (funding_rate : Option ℚ) (horizon_ms eight_hours : Int) : ℚ :=
  match funding_rate with
  | none => 0
  | some r => if eight_hours ≤ 0 then 0 else r * ((horizon_ms : ℚ) / (eight_hours : ℚ)) * 100

/-- labeler.py main: `eight_hours_ms = 8 * 60 * 60 * 1000`. -/
def eight_hours_ms : Int := 28800000

/-- The payload labeler.py main writes for one emitted label. -/
structure ReturnLabel where
  symbol : String
  entryTime : Int
  entryPrice : ℚ
  targetTime : Int
  actualTargetTime : Int
  lagMs : Int
  maxLagMs : Int
  entryBid : ℚ
  entryAsk : ℚ
  targetBid : ℚ
  targetAsk : ℚ
  targetPrice : ℚ
  horizonMs : Int
  fundingRate : Option ℚ
  fundingAdjPct : ℚ
  midReturnPct : ℚ
  longReturnPct : ℚ
  shortReturnPct : ℚ
deriving DecidableEq

/-- Configuration of labeler.py main after argument parsing
(`max_lag_pct = max(0, --max-lag-pct)`, `cost_frac = cost_bps / 10000`). -/
structure LabelerCfg where
  maxLagPct : ℚ
  costFrac : ℚ
  requireBBO : Bool
  fundingEnabled : Bool

/-- The payload labeler.py main emits for one (row, target, horizon): the
execution returns, the funding adjustment (subtracted from the long return,
added to the short return), and the bookkeeping fields. -/
def labelEmit (cfg : LabelerCfg) (symbol : String) (row target : SnapRow)
    (horizonMs : Int) : ReturnLabel :=
  let er := compute_execution_returns row.price row.bid row.ask
    target.price target.bid target.ask cfg.costFrac
  let adj :=
    if cfg.fundingEnabled then
      compute_funding_adjust_pct row.funding horizonMs eight_hours_ms
    else 0
  { symbol := symbol
    entryTime := row.time
    entryPrice := row.price
    targetTime := row.time + horizonMs
    actualTargetTime := target.time
    lagMs := target.time - (row.time + horizonMs)
    maxLagMs := pyInt ((horizonMs : ℚ) * cfg.maxLagPct)
    entryBid := er.entryBid
    entryAsk := er.entryAsk
    targetBid := er.targetBid
    targetAsk := er.targetAsk
    targetPrice := target.price
    horizonMs := horizonMs
    fundingRate := row.funding
    fundingAdjPct := adj
    midReturnPct := er.midReturnPct
    longReturnPct := er.longReturnPct - adj
    shortReturnPct := er.shortReturnPct + adj }

/-- The body of labeler.py main's inner loop for one row and one horizon:
target lookup by `bisect_left`, lag / positivity / BBO gates, then the
emitted payload. `rows` is the symbol's full (sorted) row list. -/
def labelFor (cfg : LabelerCfg) (symbol : String) (rows : List SnapRow)
    (row : SnapRow) (horizonMs : Int) : Option ReturnLabel :=
  let times := rows.map (fun r => r.time)
  let targetTime := row.time + horizonMs
  match rows.get? (bisectLeft times targetTime) with
  | none => none
  | some target =>
    let lagMs := target.time - targetTime
    let maxLagMs := pyInt ((horizonMs : ℚ) * cfg.maxLagPct)
    if maxLagMs < lagMs then none
    else if row.price ≤ 0 ∨ target.price ≤ 0 then none
    else if cfg.requireBBO ∧
        (row.bid = none ∨ row.ask = none ∨ target.bid = none ∨ target.ask = none) then none
    else some (labelEmit cfg symbol row target horizonMs)

/-- labeler.py main's per-symbol double loop: every row, every horizon,
each passing the `labelFor` gates, in input order. -/
def processSymbol (cfg : LabelerCfg) (symbol : String) (horizons : List Int)
    (rows : List SnapRow) : List ReturnLabel :=
  rows.flatMap (fun row => horizons.filterMap (fun h => labelFor cfg symbol rows row h))

/-- Stable insertion (after equal keys) used to model Python's stable
`rows.sort(key=time)` in `load_symbol_rows`. -/
def insertByTime (r : SnapRow) : List SnapRow → List SnapRow
  | [] => [r]
  | x :: xs => if x.time ≤ r.time then x :: insertByTime r xs else r :: x :: xs

/-- Stable sort by `time`, modelling `load_symbol_rows`'s `rows.sort`. -/
def sortRows (rows : List SnapRow) : List SnapRow :=
  rows.foldl (fun acc r => insertByTime r acc) []

/-- labeler.py main as a run: abort with `SystemExit('No snapshots found.')`
when no per-symbol snapshot file exists — the check precedes
`open(args.output, 'w')`, so a fatal configuration error is modelled as
`Except.error` carrying no output at all. -/
def labelerMain (cfg : LabelerCfg) (horizons : List Int)
    (symbolFiles : List (String × List SnapRow)) : Except String (List ReturnLabel) :=
  if symbolFiles = [] then Except.error "No snapshots found."
  else Except.ok (symbolFiles.flatMap
    (fun sf => processSymbol cfg sf.1 horizons (sortRows sf.2)))

/-! ## labeler_barrier.py — triple-barrier labeler -/

/-- One `(time, price)` row loaded by labeler_barrier.py `load_symbol_rows`. -/
structure Tick where
  time : Int
  price : ℚ
deriving DecidableEq

/-- The three barrier outcomes. -/
inductive BLabel where
  | TP
  | SL
  | TIME
deriving DecidableEq

/-- The scan loop of `classify_path`: walk ticks in order, stop (returning no
hit) at the first tick past `endTime`; at each in-horizon tick check the TP
threshold (`price >= tp_price`) before the SL threshold (`price <= sl_price`). -/
def classifyLoop (tp_price sl_price : ℚ) (endTime : Int) : List Tick → Option (BLabel × Int × ℚ)
  | [] => none
  | tk :: rest =>
    if endTime < tk.time then none
    else if tp_price ≤ tk.price then some (BLabel.TP, tk.time, tk.price)
    else if tk.price ≤ sl_price then some (BLabel.SL, tk.time, tk.price)
    else classifyLoop tp_price sl_price endTime rest

/-- labeler_barrier.py `classify_path` (long side): barriers
`tp = entry*(1 + tpBps/10000)`, `sl = entry*(1 - slBps/10000)`; scan starts at
`bisect_left(times, start_time)`; default result is
`("TIME", start_time + horizon_ms, entry_price)`. -/
def classify_path (rows : List Tick) (start_time horizon_ms : Int)
    (entry_price tp_bps sl_bps : ℚ) : BLabel × Int × ℚ :=
  let tp_price := entry_price * (1 + tp_bps / 10000)
  let sl_price := entry_price * (1 - sl_bps / 10000)
  let end_time := start_time + horizon_ms
  let idx := bisectLeft (rows.map (fun r => r.time)) start_time
  match classifyLoop tp_price sl_price end_time (rows.drop idx) with
  | some res => res
  | none => (BLabel.TIME, end_time, entry_price)

/-- The scan loop of `classify_path_short`: TP threshold is
`price <= tp_price`, checked before SL (`price >= sl_price`). -/
def classifyLoopShort (tp_price sl_price : ℚ) (endTime : Int) : List Tick → Option (BLabel × Int × ℚ)
  | [] => none
  | tk :: rest =>
    if endTime < tk.time then none
    else if tk.price ≤ tp_price then some (BLabel.TP, tk.time, tk.price)
    else if sl_price ≤ tk.price then some (BLabel.SL, tk.time, tk.price)
    else classifyLoopShort tp_price sl_price endTime rest

/-- labeler_barrier.py `classify_path_short`: mirrored barriers
`tp = entry*(1 - tpBps/10000)`, `sl = entry*(1 + slBps/10000)`. -/
def classify_path_short (rows : List Tick) (start_time horizon_ms : Int)
    (entry_price tp_bps sl_bps : ℚ) : BLabel × Int × ℚ :=
  let tp_price := entry_price * (1 - tp_bps / 10000)
  let sl_price := entry_price * (1 + sl_bps / 10000)
  let end_time := start_time + horizon_ms
  let idx := bisectLeft (rows.map (fun r => r.time)) start_time
  match classifyLoopShort tp_price sl_price end_time (rows.drop idx) with
  | some res => res
  | none => (BLabel.TIME, end_time, entry_price)

/-- Stable insertion by time for ticks (labeler_barrier.py
`load_symbol_rows`'s `rows.sort`). -/
def insertTick (r : Tick) : List Tick → List Tick
  | [] => [r]
  | x :: xs => if x.time ≤ r.time then x :: insertTick r xs else r :: x :: xs

/-- Stable sort by `time` for ticks. -/
def sortTicks (rows : List Tick) : List Tick :=
  rows.foldl (fun acc r => insertTick r acc) []

/-- `--side` argument of labeler_barrier.py. -/
inductive Side where
  | long
  | short
  | both
deriving DecidableEq

/-- One payload written by labeler_barrier.py main. -/
structure BarrierLabel where
  symbol : String
  entryTime : Int
  entryPrice : ℚ
  horizonMs : Int
  resLong : Option (BLabel × Int × ℚ)
  resShort : Option (BLabel × Int × ℚ)
deriving DecidableEq

/-- labeler_barrier.py main: `horizon_ms = horizon_sec * 1000` must be
positive, then snapshot and event streams must be nonempty — each violation
raises `SystemExit` before `open(args.output, "w")`, modelled as
`Except.error` carrying no output. A symbol with no event rows is skipped
(the `missing_events` counter). -/
def barrierMain (horizonSec : Int) (tpBps slBps : ℚ) (side : Side)
    (snapFiles eventFiles : List (String × List Tick)) :
    Except String (List BarrierLabel) :=
  let horizonMs := horizonSec * 1000
  if horizonMs ≤ 0 then Except.error "horizon-sec must be > 0"
  else if snapFiles = [] then Except.error "No snapshots found."
  else if eventFiles = [] then Except.error "No raw events found for selected event type."
  else Except.ok (snapFiles.flatMap (fun sf =>
    match lookupKey sf.1 eventFiles with
    | none => []
    | some events =>
      let rows := sortTicks events
      if rows = [] then []
      else (sortTicks sf.2).map (fun snap =>
        { symbol := sf.1
          entryTime := snap.time
          entryPrice := snap.price
          horizonMs := horizonMs
          resLong :=
            if side = Side.long ∨ side = Side.both then
              some (classify_path rows snap.time horizonMs snap.price tpBps slBps)
            else none
          resShort :=
            if side = Side.short ∨ side = Side.both then
              some (classify_path_short rows snap.time horizonMs snap.price tpBps slBps)
            else none })))

/-! ## build_dataset.py — context feature engine

Feature names in the source are strings such as `ctx_BTCUSDT_trend_5m`; the
four name families are embedded structurally.  The volatility feature's value
in the source is `sqrt(max(variance, 0))`; over ℚ we record
`max(variance, 0)` itself — the emission condition (the subject of the
claims) is unchanged, since `sqrt` is total on the clamped value. -/

inductive FeatKey where
  | age (sym : String)
  | price (sym : String)
  | trend (sym : String) (windowMs : Int)
  | vol (sym : String) (windowMs : Int)
deriving DecidableEq

/-- build_dataset.py `compute_context_features` inner loop: consecutive
bar-to-bar percentage returns over a window slice, skipping pairs with a
non-positive endpoint. -/
def barReturns : List ℚ → List ℚ
  | [] => []
  | [_] => []
  | a :: b :: rest =>
    (if 0 < a ∧ 0 < b then [((b - a) / a) * 100] else []) ++ barReturns (b :: rest)

/-- The per-window part of `compute_context_features`: trend feature when the
window start is found with a positive price, volatility feature when the
window slice has at least 4 points and at least 3 valid returns. -/
def windowFeatures (sym : String) (times : List Int) (prices : List ℚ)
    (idx : Nat) (end_price : ℚ) (entry_time : Int) (window_ms : Int) : List (FeatKey × ℚ) :=
  let start_time := entry_time - window_ms
  let start_idx := bisectLeft times start_time
  if idx < start_idx then []
  else
    match prices.get? start_idx with
    | none => []
    | some start_price =>
      if start_price ≤ 0 then []
      else
        let trend := ((end_price - start_price) / start_price) * 100
        (FeatKey.trend sym window_ms, trend) ::
          (let window_prices := (prices.take (idx + 1)).drop start_idx
           if window_prices.length < 4 then []
           else
             let returns := barReturns window_prices
             if returns.length < 3 then []
             else
               let mean := returns.sum / (returns.length : ℚ)
               let variance :=
                 (returns.map (fun r => (r - mean) ^ 2)).sum / ((returns.length : ℚ) - 1)
               [(FeatKey.vol sym window_ms, max variance 0)])

/-- The per-symbol body of build_dataset.py `compute_context_features`:
latest observation at or before `entry_time` via `bisect_right - 1`; always
emit the age feature once an anchor exists; a stale anchor
(`age > max_context_lag_ms`) stops everything else; a non-positive end price
stops price/trend/vol; otherwise emit the price feature and the per-window
features. -/
def contextFeaturesFor (sym : String) (times : List Int) (prices : List ℚ)
    (entry_time : Int) (windows_ms : List Int) (max_lag_ms : Int) : List (FeatKey × ℚ) :=
  if times = [] then []
  else
    let r := bisectRight times entry_time
    if r = 0 then []
    else
      let idx := r - 1
      match times.get? idx with
      | none => []
      | some anchor_time =>
        let age_ms := entry_time - anchor_time
        (FeatKey.age sym, (age_ms : ℚ)) ::
          (if max_lag_ms < age_ms then []
           else
             match prices.get? idx with
             | none => []
             | some end_price =>
               if end_price ≤ 0 then []
               else
                 (FeatKey.price sym, end_price) ::
                   windows_ms.flatMap
                     (fun w => windowFeatures sym times prices idx end_price entry_time w))

/-- build_dataset.py `compute_context_features` over the whole context index
(emission order; the source accumulates into a dict keyed by feature name). -/
def compute_context_features (ctx : List (String × List Int × List ℚ))
    (entry_time : Int) (windows_ms : List Int) (max_lag_ms : Int) : List (FeatKey × ℚ) :=
  ctx.flatMap (fun e => contextFeaturesFor e.1 e.2.1 e.2.2 entry_time windows_ms max_lag_ms)

/-! ## backtest.py — backtest simulator -/

inductive Action where
  | long
  | short
deriving DecidableEq

/-- One dataset row as read by backtest.py `run_backtest`: any field may be
missing or non-finite (`Option.none`). -/
structure BTRow where
  symbol : Option String
  entryTime : Option Int
  horizonMs : Option Int
  prediction : Option ℚ
  longReturnPct : Option ℚ
  shortReturnPct : Option ℚ
  returnPct : Option ℚ
deriving DecidableEq

structure BTParams where
  longThreshold : ℚ
  shortThreshold : ℚ
  extraCostBps : ℚ
  shortEnabled : Bool

structure Trade where
  symbol : String
  entryTime : Int
  exitTime : Int
  action : Action
  prediction : ℚ
  realizedPct : ℚ
deriving DecidableEq

/-- backtest.py `select_return`: long prefers `longReturnPct` with
`returnPct` fallback; short prefers `shortReturnPct` with negated
`returnPct` fallback. -/
def select_return (row : BTRow) (action : Action) : Option ℚ :=
  match action with
  | Action.long =>
    match row.longReturnPct with
    | some v => some v
    | none => row.returnPct
  | Action.short =>
    match row.shortReturnPct with
    | some v => some v
    | none =>
      match row.returnPct with
      | some b => some (-b)
      | none => none

/-- Threshold rule of `run_backtest`: long when `prediction >= longThreshold`,
else short when shorting is enabled and `prediction <= -shortThreshold`. -/
def decideAction (p : BTParams) (pred : ℚ) : Option Action :=
  if p.longThreshold ≤ pred then some Action.long
  else if p.shortEnabled ∧ pred ≤ -p.shortThreshold then some Action.short
  else none

/-- One iteration of the `run_backtest` loop: field checks, positive horizon,
the `last_exit` watermark gate, action decision, realized-return selection,
extra cost, then trade recording plus watermark update. Returns the new
watermark map and the recorded trade, if any. -/
def btStep (p : BTParams) (lastExit : List (String × Int)) (row : BTRow) :
    List (String × Int) × Option Trade :=
  match row.symbol, row.entryTime, row.horizonMs, row.prediction with
  | some s, some t, some hz, some pred =>
    if s = "" then (lastExit, none)
    else if hz ≤ 0 then (lastExit, none)
    else if (match lookupKey s lastExit with | some e => decide (t < e) | none => false) = true then
      (lastExit, none)
    else
      match decideAction p pred with
      | none => (lastExit, none)
      | some act =>
        match select_return row act with
        | none => (lastExit, none)
        | some realized =>
          let exitT := t + hz
          ((s, exitT) :: lastExit,
            some ⟨s, t, exitT, act, pred, realized - p.extraCostBps / 100⟩)
  | _, _, _, _ => (lastExit, none)

/-- The `run_backtest` loop over all rows, threading the watermark map. -/
def runBT (p : BTParams) : List BTRow → List (String × Int) → List Trade
  | [], _ => []
  | r :: rs, le =>
    match btStep p le r with
    | (le2, some tr) => tr :: runBT p rs le2
    | (le2, none) => runBT p rs le2

/-- backtest.py `run_backtest` (trade list; `trade_returns` is its
`realizedPct` projection). -/
def run_backtest (p : BTParams) (rows : List BTRow) : List Trade :=
  runBT p rows []

/-- Ordering of the input rows by `entryTime` (rows missing the field are
unconstrained; they are rejected by `btStep` anyway). backtest.py main sorts
the dataset by `entryTime` before calling `run_backtest`. -/
def entryLE (a b : BTRow) : Bool :=
  match a.entryTime, b.entryTime with
  | some ta, some tb => ta ≤ tb
  | _, _ => true

/-! ## Supporting lemmas -/

theorem pyInt_of_nonneg {q : ℚ} (h : 0 ≤ q) : pyInt q = ⌊q⌋ := by
  unfold pyInt
  rw [if_neg (not_lt.mpr h)]

/-- The element found at the `bisect_left` insertion point is at or after the
probe. -/
theorem get_bisectLeft_ge {α : Type} (f : α → Int) :
    ∀ (l : List α) (x : Int) (y : α),
      l.get? (bisectLeft (l.map f) x) = some y → x ≤ f y := by
  intro l
  induction l with
  | nil => intro x y hy; simp at hy
  | cons a t ih =>
    intro x y hy
    simp only [List.map_cons, bisectLeft] at hy
    by_cases hax : f a < x
    · rw [if_pos hax] at hy
      exact ih x y hy
    · rw [if_neg hax] at hy
      simp only [List.get?_cons_zero, Option.some.injEq] at hy
      subst hy
      exact not_lt.mp hax

/-- Everything strictly before the `bisect_left` insertion point is before the
probe. -/
theorem take_bisectLeft_lt {α : Type} (f : α → Int) :
    ∀ (l : List α) (x : Int) (y : α),
      y ∈ l.take (bisectLeft (l.map f) x) → f y < x := by
  intro l
  induction l with
  | nil => intro x y hy; simp at hy
  | cons a t ih =>
    intro x y hy
    simp only [List.map_cons, bisectLeft] at hy
    by_cases hax : f a < x
    · rw [if_pos hax, List.take_succ_cons] at hy
      rcases List.mem_cons.mp hy with h1 | h2
      · subst h1; exact hax
      · exact ih x y h2
    · rw [if_neg hax] at hy
      simp at hy

/-- On a time-sorted list, everything at or past the `bisect_left` insertion
point is at or after the probe. -/
theorem drop_bisectLeft_ge {α : Type} (f : α → Int) :
    ∀ (l : List α) (x : Int),
      List.Pairwise (fun a b => f a ≤ f b) l →
      ∀ y ∈ l.drop (bisectLeft (l.map f) x), x ≤ f y := by
  intro l
  induction l with
  | nil => intro x _ y hy; simp at hy
  | cons a t ih =>
    intro x hs y hy
    rcases List.pairwise_cons.mp hs with ⟨ha, ht⟩
    simp only [List.map_cons, bisectLeft] at hy
    by_cases hax : f a < x
    · rw [if_pos hax, List.drop_succ_cons] at hy
      exact ih x ht y hy
    · rw [if_neg hax, List.drop_zero] at hy
      rcases List.mem_cons.mp hy with h1 | h2
      · subst h1; exact not_lt.mp hax
      · exact le_trans (not_lt.mp hax) (ha y h2)

/-- Inversion of `labelFor` on the emitting path: the target exists at the
`bisect_left` index, the lag and positivity gates passed, and the label is
exactly the emitted payload. -/
theorem labelFor_eq_some {cfg : LabelerCfg} {symbol : String} {rows : List SnapRow}
    {row : SnapRow} {h : Int} {lbl : ReturnLabel}
    (hl : labelFor cfg symbol rows row h = some lbl) :
    ∃ target,
      rows.get? (bisectLeft (rows.map (fun r => r.time)) (row.time + h)) = some target ∧
      target.time - (row.time + h) ≤ pyInt ((h : ℚ) * cfg.maxLagPct) ∧
      0 < row.price ∧ 0 < target.price ∧
      lbl = labelEmit cfg symbol row target h := by
  simp only [labelFor] at hl
  split at hl
  · exact absurd hl (by simp)
  · rename_i target hg
    split_ifs at hl with h1 h2 h3
    rcases not_or.mp h2 with ⟨hp1, hp2⟩
    exact ⟨target, hg, not_lt.mp h1, not_le.mp hp1, not_le.mp hp2,
      (Option.some.injEq _ _ ▸ hl).symm⟩

/-- Rejection branches of `labelFor`: no target, or lag above the bound. -/
theorem labelFor_eq_none_of_reject {cfg : LabelerCfg} {symbol : String}
    {rows : List SnapRow} {row : SnapRow} {h : Int} :
    (rows.get? (bisectLeft (rows.map (fun r => r.time)) (row.time + h)) = none →
      labelFor cfg symbol rows row h = none) ∧
    (∀ target,
      rows.get? (bisectLeft (rows.map (fun r => r.time)) (row.time + h)) = some target →
      pyInt ((h : ℚ) * cfg.maxLagPct) < target.time - (row.time + h) →
      labelFor cfg symbol rows row h = none) := by
  constructor
  · intro hg
    simp only [labelFor]
    rw [hg]
  · intro target hg hlag
    simp only [labelFor]
    rw [hg]
    simp only [if_pos hlag]

/-- The emitting path of `labelFor`, given that every gate passes. -/
theorem labelFor_eq_some_of {cfg : LabelerCfg} {symbol : String} {rows : List SnapRow}
    {row : SnapRow} {h : Int} {target : SnapRow}
    (hg : rows.get? (bisectLeft (rows.map (fun r => r.time)) (row.time + h)) = some target)
    (hlag : target.time - (row.time + h) ≤ pyInt ((h : ℚ) * cfg.maxLagPct))
    (hp : 0 < row.price) (ht : 0 < target.price)
    (hbbo : ¬(cfg.requireBBO ∧
      (row.bid = none ∨ row.ask = none ∨ target.bid = none ∨ target.ask = none))) :
    labelFor cfg symbol rows row h = some (labelEmit cfg symbol row target h) := by
  simp only [labelFor, hg]
  rw [if_neg (not_lt.mpr hlag),
    if_neg (by push_neg; exact ⟨hp, ht⟩), if_neg hbbo]

/-! ## Claim theorems -/

/-- C2: every ReturnLabel emitted by the return labeler satisfies
`0 ≤ lagMs ≤ ⌊horizonMs * lagTolerance⌋` with
`lagMs = actualTargetTime - (entryTime + horizonMs)`; an observation whose
at-or-after target lags more than the bound, or has no target at all,
produces no label for that horizon. -/
theorem return_label_lag_bound (cfg : LabelerCfg) (symbol : String)
    (rows : List SnapRow) (row : SnapRow) (h : Int) :
    (0 ≤ h → 0 ≤ cfg.maxLagPct →
      ∀ lbl, labelFor cfg symbol rows row h = some lbl →
        lbl.lagMs = lbl.actualTargetTime - (lbl.entryTime + h) ∧
        0 ≤ lbl.lagMs ∧ lbl.lagMs ≤ ⌊(h : ℚ) * cfg.maxLagPct⌋) ∧
    (rows.get? (bisectLeft (rows.map (fun r => r.time)) (row.time + h)) = none →
      labelFor cfg symbol rows row h = none) ∧
    (∀ target,
      rows.get? (bisectLeft (rows.map (fun r => r.time)) (row.time + h)) = some target →
      pyInt ((h : ℚ) * cfg.maxLagPct) < target.time - (row.time + h) →
      labelFor cfg symbol rows row h = none) := by
  refine ⟨?_, labelFor_eq_none_of_reject.1, labelFor_eq_none_of_reject.2⟩
  intro hh hpct lbl hl
  obtain ⟨target, hg, hlag, _hp1, _hp2, hlbl⟩ := labelFor_eq_some hl
  have hge : row.time + h ≤ target.time := get_bisectLeft_ge (fun r => r.time) rows _ target hg
  have hfl : pyInt ((h : ℚ) * cfg.maxLagPct) = ⌊(h : ℚ) * cfg.maxLagPct⌋ :=
    pyInt_of_nonneg (mul_nonneg (by exact_mod_cast hh) hpct)
  subst hlbl
  refine ⟨by simp [labelEmit], ?_, ?_⟩
  · simp only [labelEmit]
    omega
  · simp only [labelEmit]
    rw [← hfl]
    exact hlag

/-- Witness for C2 at the spec's Example 1: symbol `X`, rows at `t=0,price=100`
and `t=60000,price=102`, horizon 60000 ms, lag tolerance 0.10. -/
theorem return_label_lag_bound_witness :
    ∃ lbl,
      labelFor ⟨1/10, 0, false, false⟩ "X"
        [⟨0, 100, none, none, none⟩, ⟨60000, 102, none, none, none⟩]
        ⟨0, 100, none, none, none⟩ 60000 = some lbl ∧
      lbl.lagMs = lbl.actualTargetTime - (lbl.entryTime + 60000) ∧
      0 ≤ lbl.lagMs ∧ lbl.lagMs ≤ ⌊(60000 : ℚ) * (1/10 : ℚ)⌋ := by
  have hsome :
      labelFor ⟨1/10, 0, false, false⟩ "X"
        [⟨0, 100, none, none, none⟩, ⟨60000, 102, none, none, none⟩]
        ⟨0, 100, none, none, none⟩ 60000 =
      some (labelEmit ⟨1/10, 0, false, false⟩ "X" ⟨0, 100, none, none, none⟩
        ⟨60000, 102, none, none, none⟩ 60000) := by
    apply labelFor_eq_some_of
    · rfl
    · show (60000 : Int) - (0 + 60000) ≤ pyInt ((60000 : ℚ) * (1/10 : ℚ))
      rw [pyInt_of_nonneg (by norm_num)]
      norm_num
    · norm_num
    · norm_num
    · simp
  refine ⟨_, hsome, ?_⟩
  exact (return_label_lag_bound ⟨1/10, 0, false, false⟩ "X"
    [⟨0, 100, none, none, none⟩, ⟨60000, 102, none, none, none⟩]
    ⟨0, 100, none, none, none⟩ 60000).1 (by norm_num) (by norm_num) _ hsome

/-- C4: every emitted ReturnLabel carries the execution-aware returns:
`midReturnPct = (target.price - price)/price*100`; the long return (before
funding) is `(longExit - longEntry)/longEntry*100` with
`longEntry = entryAsk*(1+costFrac)`, `longExit = targetBid*(1-costFrac)`;
the short return (before funding) is
`(shortEntry - shortExit)/shortEntry*100` with
`shortEntry = entryBid*(1-costFrac)`, `shortExit = targetAsk*(1+costFrac)`;
absent bid/ask default to the snapshot's price; with no book data and zero
cost the long return equals the mid return and the short return its
negation (before funding adjustment). -/
theorem return_label_execution_formulas (cfg : LabelerCfg) (symbol : String)
    (rows : List SnapRow) (row : SnapRow) (h : Int) (lbl : ReturnLabel)
    (hl : labelFor cfg symbol rows row h = some lbl) :
    ∃ target,
      rows.get? (bisectLeft (rows.map (fun r => r.time)) (row.time + h)) = some target ∧
      lbl.midReturnPct = (target.price - row.price) / row.price * 100 ∧
      lbl.entryBid = pick_price row.bid row.price ∧
      lbl.entryAsk = pick_price row.ask row.price ∧
      lbl.targetBid = pick_price target.bid target.price ∧
      lbl.targetAsk = pick_price target.ask target.price ∧
      lbl.longReturnPct + lbl.fundingAdjPct =
        (lbl.targetBid * (1 - cfg.costFrac) - lbl.entryAsk * (1 + cfg.costFrac)) /
          (lbl.entryAsk * (1 + cfg.costFrac)) * 100 ∧
      lbl.shortReturnPct - lbl.fundingAdjPct =
        (lbl.entryBid * (1 - cfg.costFrac) - lbl.targetAsk * (1 + cfg.costFrac)) /
          (lbl.entryBid * (1 - cfg.costFrac)) * 100 ∧
      (row.bid = none → row.ask = none → target.bid = none → target.ask = none →
        cfg.costFrac = 0 →
        lbl.longReturnPct + lbl.fundingAdjPct = lbl.midReturnPct ∧
        lbl.shortReturnPct - lbl.fundingAdjPct = -lbl.midReturnPct) := by
  obtain ⟨target, hg, _hlag, _hp, _ht, hlbl⟩ := labelFor_eq_some hl
  subst hlbl
  refine ⟨target, hg, ?_, ?_, ?_, ?_, ?_, ?_, ?_, ?_⟩
  · rfl
  · rfl
  · rfl
  · rfl
  · rfl
  · simp only [labelEmit, compute_execution_returns]
    ring
  · simp only [labelEmit, compute_execution_returns]
    ring
  · intro h1 h2 h3 h4 h5
    simp only [labelEmit, compute_execution_returns, h1, h2, h3, h4, h5, pick_price]
    constructor
    · ring
    · ring

/-- Witness for C4: a label emitted from mid-only snapshots with zero cost
degrades to the pure mid-price return. -/
theorem return_label_execution_formulas_witness :
    ∃ lbl,
      labelFor ⟨1/10, 0, false, false⟩ "X"
        [⟨0, 100, none, none, none⟩, ⟨60000, 102, none, none, none⟩]
        ⟨0, 100, none, none, none⟩ 60000 = some lbl ∧
      lbl.longReturnPct + lbl.fundingAdjPct = lbl.midReturnPct ∧
      lbl.shortReturnPct - lbl.fundingAdjPct = -lbl.midReturnPct := by
  have hsome :
      labelFor ⟨1/10, 0, false, false⟩ "X"
        [⟨0, 100, none, none, none⟩, ⟨60000, 102, none, none, none⟩]
        ⟨0, 100, none, none, none⟩ 60000 =
      some (labelEmit ⟨1/10, 0, false, false⟩ "X" ⟨0, 100, none, none, none⟩
        ⟨60000, 102, none, none, none⟩ 60000) := by
    apply labelFor_eq_some_of
    · rfl
    · show (60000 : Int) - (0 + 60000) ≤ pyInt ((60000 : ℚ) * (1/10 : ℚ))
      rw [pyInt_of_nonneg (by norm_num)]
      norm_num
    · norm_num
    · norm_num
    · simp
  obtain ⟨target, hg, _, _, _, _, _, _, _, hdeg⟩ :=
    return_label_execution_formulas ⟨1/10, 0, false, false⟩ "X"
      [⟨0, 100, none, none, none⟩, ⟨60000, 102, none, none, none⟩]
      ⟨0, 100, none, none, none⟩ 60000 _ hsome
  have htgt : target = (⟨60000, 102, none, none, none⟩ : SnapRow) := by
    have h2 :
        ([⟨0, 100, none, none, none⟩, ⟨60000, 102, none, none, none⟩] :
          List SnapRow).get?
            (bisectLeft
              (([⟨0, 100, none, none, none⟩, ⟨60000, 102, none, none, none⟩] :
                List SnapRow).map (fun r => r.time))
              ((⟨0, 100, none, none, none⟩ : SnapRow).time + 60000)) =
          some (⟨60000, 102, none, none, none⟩ : SnapRow) := rfl
    exact Option.some.inj (hg.symm.trans h2)
  subst htgt
  exact ⟨_, hsome, hdeg rfl rfl rfl rfl rfl⟩

/-- C5: every emitted ReturnLabel's funding adjustment is
`fundingRate * (horizonMs / 28800000) * 100`, subtracted from the long
return and added to the short return; when funding is disabled or the rate
is unknown the adjustment is `0` and both side returns equal the unadjusted
execution returns. -/
theorem return_label_funding_adjust (cfg : LabelerCfg) (symbol : String)
    (rows : List SnapRow) (row : SnapRow) (h : Int) (lbl : ReturnLabel)
    (hl : labelFor cfg symbol rows row h = some lbl) :
    ∃ target,
      rows.get? (bisectLeft (rows.map (fun r => r.time)) (row.time + h)) = some target ∧
      lbl.fundingAdjPct =
        (if cfg.fundingEnabled then compute_funding_adjust_pct row.funding h eight_hours_ms
         else 0) ∧
      (∀ r, row.funding = some r → cfg.fundingEnabled = true →
        lbl.fundingAdjPct = r * ((h : ℚ) / 28800000) * 100) ∧
      lbl.longReturnPct =
        (compute_execution_returns row.price row.bid row.ask
          target.price target.bid target.ask cfg.costFrac).longReturnPct -
          lbl.fundingAdjPct ∧
      lbl.shortReturnPct =
        (compute_execution_returns row.price row.bid row.ask
          target.price target.bid target.ask cfg.costFrac).shortReturnPct +
          lbl.fundingAdjPct ∧
      ((cfg.fundingEnabled = false ∨ row.funding = none) →
        lbl.fundingAdjPct = 0 ∧
        lbl.longReturnPct =
          (compute_execution_returns row.price row.bid row.ask
            target.price target.bid target.ask cfg.costFrac).longReturnPct ∧
        lbl.shortReturnPct =
          (compute_execution_returns row.price row.bid row.ask
            target.price target.bid target.ask cfg.costFrac).shortReturnPct) := by
  obtain ⟨target, hg, _hlag, _hp, _ht, hlbl⟩ := labelFor_eq_some hl
  subst hlbl
  have hadj :
      (labelEmit cfg symbol row target h).fundingAdjPct =
        (if cfg.fundingEnabled then compute_funding_adjust_pct row.funding h eight_hours_ms
         else 0) := rfl
  refine ⟨target, hg, hadj, ?_, rfl, rfl, ?_⟩
  · intro r hr hen
    rw [hadj, hr, hen, if_pos rfl]
    simp only [compute_funding_adjust_pct, eight_hours_ms]
    norm_num
  · intro hoff
    have h0 : (labelEmit cfg symbol row target h).fundingAdjPct = 0 := by
      rw [hadj]
      rcases hoff with hen | hfund
      · rw [hen]
        simp
      · rw [hfund]
        simp [compute_funding_adjust_pct]
    refine ⟨h0, ?_, ?_⟩
    · show (labelEmit cfg symbol row target h).longReturnPct = _
      have hlong :
          (labelEmit cfg symbol row target h).longReturnPct =
            (compute_execution_returns row.price row.bid row.ask
              target.price target.bid target.ask cfg.costFrac).longReturnPct -
              (labelEmit cfg symbol row target h).fundingAdjPct := rfl
      rw [hlong, h0, sub_zero]
    · show (labelEmit cfg symbol row target h).shortReturnPct = _
      have hshort :
          (labelEmit cfg symbol row target h).shortReturnPct =
            (compute_execution_returns row.price row.bid row.ask
              target.price target.bid target.ask cfg.costFrac).shortReturnPct +
              (labelEmit cfg symbol row target h).fundingAdjPct := rfl
      rw [hshort, h0, add_zero]

/-- Witness for C5: a label with a known funding rate and funding enabled has
the documented adjustment value. -/
theorem return_label_funding_adjust_witness :
    ∃ lbl,
      labelFor ⟨1/10, 0, false, true⟩ "X"
        [⟨0, 100, none, none, some (1/100)⟩, ⟨60000, 102, none, none, none⟩]
        ⟨0, 100, none, none, some (1/100)⟩ 60000 = some lbl ∧
      lbl.fundingAdjPct = (1/100 : ℚ) * ((60000 : ℚ) / 28800000) * 100 := by
  have hsome :
      labelFor ⟨1/10, 0, false, true⟩ "X"
        [⟨0, 100, none, none, some (1/100)⟩, ⟨60000, 102, none, none, none⟩]
        ⟨0, 100, none, none, some (1/100)⟩ 60000 =
      some (labelEmit ⟨1/10, 0, false, true⟩ "X" ⟨0, 100, none, none, some (1/100)⟩
        ⟨60000, 102, none, none, none⟩ 60000) := by
    apply labelFor_eq_some_of
    · rfl
    · show (60000 : Int) - (0 + 60000) ≤ pyInt ((60000 : ℚ) * (1/10 : ℚ))
      rw [pyInt_of_nonneg (by norm_num)]
      norm_num
    · norm_num
    · norm_num
    · simp
  obtain ⟨target, _hg, _hadj, hrate, _⟩ :=
    return_label_funding_adjust ⟨1/10, 0, false, true⟩ "X"
      [⟨0, 100, none, none, some (1/100)⟩, ⟨60000, 102, none, none, none⟩]
      ⟨0, 100, none, none, some (1/100)⟩ 60000 _ hsome
  exact ⟨_, hsome, hrate (1/100) rfl rfl⟩

/-- The long-side scan finds nothing when no in-horizon tick reaches either
threshold. -/
theorem classifyLoop_eq_none {tp sl : ℚ} {endT : Int} :
    ∀ l : List Tick,
      (∀ tk ∈ l, tk.time ≤ endT → tk.price < tp ∧ sl < tk.price) →
      classifyLoop tp sl endT l = none := by
  intro l
  induction l with
  | nil => intro _; rfl
  | cons tk rest ih =>
    intro hno
    simp only [classifyLoop]
    by_cases ht : endT < tk.time
    · rw [if_pos ht]
    · rw [if_neg ht]
      obtain ⟨h1, h2⟩ := hno tk (List.mem_cons_self tk rest) (not_lt.mp ht)
      rw [if_neg (not_le.mpr h1), if_neg (not_le.mpr h2)]
      exact ih (fun x hx hxt => hno x (List.mem_cons_of_mem tk hx) hxt)

/-- The short-side scan finds nothing when no in-horizon tick reaches either
mirrored threshold. -/
theorem classifyLoopShort_eq_none {tp sl : ℚ} {endT : Int} :
    ∀ l : List Tick,
      (∀ tk ∈ l, tk.time ≤ endT → tp < tk.price ∧ tk.price < sl) →
      classifyLoopShort tp sl endT l = none := by
  intro l
  induction l with
  | nil => intro _; rfl
  | cons tk rest ih =>
    intro hno
    simp only [classifyLoopShort]
    by_cases ht : endT < tk.time
    · rw [if_pos ht]
    · rw [if_neg ht]
      obtain ⟨h1, h2⟩ := hno tk (List.mem_cons_self tk rest) (not_lt.mp ht)
      rw [if_neg (not_le.mpr h1), if_neg (not_le.mpr h2)]
      exact ih (fun x hx hxt => hno x (List.mem_cons_of_mem tk hx) hxt)

/-- A prefix of in-horizon, non-triggering ticks is skipped by the long-side
scan. -/
theorem classifyLoop_append {tp sl : ℚ} {endT : Int} :
    ∀ (pre rest : List Tick),
      (∀ x ∈ pre, x.time ≤ endT ∧ x.price < tp ∧ sl < x.price) →
      classifyLoop tp sl endT (pre ++ rest) = classifyLoop tp sl endT rest := by
  intro pre
  induction pre with
  | nil => intro rest _; rfl
  | cons x xs ih =>
    intro rest hpre
    obtain ⟨h1, h2, h3⟩ := hpre x (List.mem_cons_self x xs)
    simp only [List.cons_append, classifyLoop]
    rw [if_neg (not_lt.mpr h1), if_neg (not_le.mpr h2), if_neg (not_le.mpr h3)]
    exact ih rest (fun y hy => hpre y (List.mem_cons_of_mem x hy))

/-- A prefix of in-horizon, non-triggering ticks is skipped by the short-side
scan. -/
theorem classifyLoopShort_append {tp sl : ℚ} {endT : Int} :
    ∀ (pre rest : List Tick),
      (∀ x ∈ pre, x.time ≤ endT ∧ tp < x.price ∧ x.price < sl) →
      classifyLoopShort tp sl endT (pre ++ rest) = classifyLoopShort tp sl endT rest := by
  intro pre
  induction pre with
  | nil => intro rest _; rfl
  | cons x xs ih =>
    intro rest hpre
    obtain ⟨h1, h2, h3⟩ := hpre x (List.mem_cons_self x xs)
    simp only [List.cons_append, classifyLoopShort]
    rw [if_neg (not_lt.mpr h1), if_neg (not_le.mpr h2), if_neg (not_le.mpr h3)]
    exact ih rest (fun y hy => hpre y (List.mem_cons_of_mem x hy))

/-- A hit reported by the long-side scan is an in-horizon tick of the scanned
list, with a TP or SL label. -/
theorem classifyLoop_eq_some {tp sl : ℚ} {endT : Int} :
    ∀ (l : List Tick) (lab : BLabel) (et : Int) (px : ℚ),
      classifyLoop tp sl endT l = some (lab, et, px) →
      (⟨et, px⟩ : Tick) ∈ l ∧ et ≤ endT ∧ (lab = BLabel.TP ∨ lab = BLabel.SL) := by
  intro l
  induction l with
  | nil => intro lab et px hl; exact absurd hl (by simp [classifyLoop])
  | cons tk rest ih =>
    intro lab et px hl
    simp only [classifyLoop] at hl
    by_cases ht : endT < tk.time
    · rw [if_pos ht] at hl
      exact absurd hl (by simp)
    · rw [if_neg ht] at hl
      by_cases htp : tp ≤ tk.price
      · rw [if_pos htp] at hl
        simp only [Option.some.injEq, Prod.mk.injEq] at hl
        obtain ⟨h1, h2, h3⟩ := hl
        subst h2
        subst h3
        exact ⟨List.mem_cons_self tk rest, not_lt.mp ht, Or.inl h1.symm⟩
      · rw [if_neg htp] at hl
        by_cases hsl : tk.price ≤ sl
        · rw [if_pos hsl] at hl
          simp only [Option.some.injEq, Prod.mk.injEq] at hl
          obtain ⟨h1, h2, h3⟩ := hl
          subst h2
          subst h3
          exact ⟨List.mem_cons_self tk rest, not_lt.mp ht, Or.inr h1.symm⟩
        · rw [if_neg hsl] at hl
          obtain ⟨hmem, hle, hlab⟩ := ih lab et px hl
          exact ⟨List.mem_cons_of_mem tk hmem, hle, hlab⟩

/-- A hit reported by the short-side scan is an in-horizon tick of the
scanned list, with a TP or SL label. -/
theorem classifyLoopShort_eq_some {tp sl : ℚ} {endT : Int} :
    ∀ (l : List Tick) (lab : BLabel) (et : Int) (px : ℚ),
      classifyLoopShort tp sl endT l = some (lab, et, px) →
      (⟨et, px⟩ : Tick) ∈ l ∧ et ≤ endT ∧ (lab = BLabel.TP ∨ lab = BLabel.SL) := by
  intro l
  induction l with
  | nil => intro lab et px hl; exact absurd hl (by simp [classifyLoopShort])
  | cons tk rest ih =>
    intro lab et px hl
    simp only [classifyLoopShort] at hl
    by_cases ht : endT < tk.time
    · rw [if_pos ht] at hl
      exact absurd hl (by simp)
    · rw [if_neg ht] at hl
      by_cases htp : tk.price ≤ tp
      · rw [if_pos htp] at hl
        simp only [Option.some.injEq, Prod.mk.injEq] at hl
        obtain ⟨h1, h2, h3⟩ := hl
        subst h2
        subst h3
        exact ⟨List.mem_cons_self tk rest, not_lt.mp ht, Or.inl h1.symm⟩
      · rw [if_neg htp] at hl
        by_cases hsl : sl ≤ tk.price
        · rw [if_pos hsl] at hl
          simp only [Option.some.injEq, Prod.mk.injEq] at hl
          obtain ⟨h1, h2, h3⟩ := hl
          subst h2
          subst h3
          exact ⟨List.mem_cons_self tk rest, not_lt.mp ht, Or.inr h1.symm⟩
        · rw [if_neg hsl] at hl
          obtain ⟨hmem, hle, hlab⟩ := ih lab et px hl
          exact ⟨List.mem_cons_of_mem tk hmem, hle, hlab⟩

/-- C3: when no tick inside `[entryTime, entryTime + horizonMs]` reaches the
take-profit or stop-loss threshold, both the long and the short triple-barrier
classification return label TIME with `exitTime = entryTime + horizonMs` and
`exitPrice = entryPrice` (the synthetic entry price). -/
theorem barrier_time_label (rows : List Tick) (start h : Int) (ep tpb slb : ℚ)
    (hs : List.Pairwise (fun a b => a.time ≤ b.time) rows) :
    ((∀ tk ∈ rows, start ≤ tk.time → tk.time ≤ start + h →
        tk.price < ep * (1 + tpb / 10000) ∧ ep * (1 - slb / 10000) < tk.price) →
      classify_path rows start h ep tpb slb = (BLabel.TIME, start + h, ep)) ∧
    ((∀ tk ∈ rows, start ≤ tk.time → tk.time ≤ start + h →
        ep * (1 - tpb / 10000) < tk.price ∧ tk.price < ep * (1 + slb / 10000)) →
      classify_path_short rows start h ep tpb slb = (BLabel.TIME, start + h, ep)) := by
  constructor
  · intro hnc
    have hnone :
        classifyLoop (ep * (1 + tpb / 10000)) (ep * (1 - slb / 10000)) (start + h)
          (rows.drop (bisectLeft (rows.map (fun r => r.time)) start)) = none := by
      apply classifyLoop_eq_none
      intro tk hmem hle
      exact hnc tk (List.drop_subset _ _ hmem)
        (drop_bisectLeft_ge (fun r => r.time) rows start hs tk hmem) hle
    simp only [classify_path, hnone]
  · intro hnc
    have hnone :
        classifyLoopShort (ep * (1 - tpb / 10000)) (ep * (1 + slb / 10000)) (start + h)
          (rows.drop (bisectLeft (rows.map (fun r => r.time)) start)) = none := by
      apply classifyLoopShort_eq_none
      intro tk hmem hle
      exact hnc tk (List.drop_subset _ _ hmem)
        (drop_bisectLeft_ge (fun r => r.time) rows start hs tk hmem) hle
    simp only [classify_path_short, hnone]

/-- Witness for C3: two in-horizon ticks that cross neither barrier on either
side yield TIME labels with the synthetic entry exit price. -/
theorem barrier_time_label_witness :
    List.Pairwise (fun a b => a.time ≤ b.time)
      ([⟨1000, 501/5⟩, ⟨3000, 499/5⟩] : List Tick) ∧
    classify_path ([⟨1000, 501/5⟩, ⟨3000, 499/5⟩] : List Tick) 0 10000 100 100 50 =
      (BLabel.TIME, 0 + 10000, 100) ∧
    classify_path_short ([⟨1000, 501/5⟩, ⟨3000, 499/5⟩] : List Tick) 0 10000 100 100 50 =
      (BLabel.TIME, 0 + 10000, 100) := by
  have hs : List.Pairwise (fun a b => a.time ≤ b.time)
      ([⟨1000, 501/5⟩, ⟨3000, 499/5⟩] : List Tick) := by
    decide
  have hlong : ∀ tk ∈ ([⟨1000, 501/5⟩, ⟨3000, 499/5⟩] : List Tick),
      (0 : Int) ≤ tk.time → tk.time ≤ 0 + 10000 →
      tk.price < 100 * (1 + 100 / 10000) ∧ 100 * (1 - 50 / 10000) < tk.price := by
    intro tk hmem
    rcases List.mem_cons.mp hmem with h1 | hmem2
    · subst h1
      intro _ _
      constructor <;> norm_num
    · rcases List.mem_cons.mp hmem2 with h2 | h3
      · subst h2
        intro _ _
        constructor <;> norm_num
      · simp at h3
  have hshort : ∀ tk ∈ ([⟨1000, 501/5⟩, ⟨3000, 499/5⟩] : List Tick),
      (0 : Int) ≤ tk.time → tk.time ≤ 0 + 10000 →
      100 * (1 - 100 / 10000) < tk.price ∧ tk.price < 100 * (1 + 50 / 10000) := by
    intro tk hmem
    rcases List.mem_cons.mp hmem with h1 | hmem2
    · subst h1
      intro _ _
      constructor <;> norm_num
    · rcases List.mem_cons.mp hmem2 with h2 | h3
      · subst h2
        intro _ _
        constructor <;> norm_num
      · simp at h3
  exact ⟨hs,
    (barrier_time_label ([⟨1000, 501/5⟩, ⟨3000, 499/5⟩] : List Tick)
      0 10000 100 100 50 hs).1 hlong,
    (barrier_time_label ([⟨1000, 501/5⟩, ⟨3000, 499/5⟩] : List Tick)
      0 10000 100 100 50 hs).2 hshort⟩

/-- C7: the first scanned in-horizon tick that satisfies either threshold
decides the barrier label: if it satisfies the TP threshold (even when it
simultaneously satisfies SL) the label is TP, because TP is checked before SL
at each tick; otherwise it is SL. Ticks are decided in scan (chronological)
order, never by threshold magnitude. Stated for both the long and the short
classification. -/
theorem barrier_tp_priority :
    (∀ (rows : List Tick) (start h : Int) (ep tpb slb : ℚ) (pre post : List Tick) (tk : Tick),
      rows.drop (bisectLeft (rows.map (fun r => r.time)) start) = pre ++ tk :: post →
      (∀ x ∈ pre, x.time ≤ start + h ∧ x.price < ep * (1 + tpb / 10000) ∧
        ep * (1 - slb / 10000) < x.price) →
      tk.time ≤ start + h →
      (ep * (1 + tpb / 10000) ≤ tk.price ∨ tk.price ≤ ep * (1 - slb / 10000)) →
      classify_path rows start h ep tpb slb =
        (if ep * (1 + tpb / 10000) ≤ tk.price then BLabel.TP else BLabel.SL,
          tk.time, tk.price)) ∧
    (∀ (rows : List Tick) (start h : Int) (ep tpb slb : ℚ) (pre post : List Tick) (tk : Tick),
      rows.drop (bisectLeft (rows.map (fun r => r.time)) start) = pre ++ tk :: post →
      (∀ x ∈ pre, x.time ≤ start + h ∧ ep * (1 - tpb / 10000) < x.price ∧
        x.price < ep * (1 + slb / 10000)) →
      tk.time ≤ start + h →
      (tk.price ≤ ep * (1 - tpb / 10000) ∨ ep * (1 + slb / 10000) ≤ tk.price) →
      classify_path_short rows start h ep tpb slb =
        (if tk.price ≤ ep * (1 - tpb / 10000) then BLabel.TP else BLabel.SL,
          tk.time, tk.price)) := by
  constructor
  · intro rows start h ep tpb slb pre post tk hdrop hpre htk hcross
    simp only [classify_path, hdrop, classifyLoop_append pre (tk :: post) hpre]
    simp only [classifyLoop, if_neg (not_lt.mpr htk)]
    by_cases htp : ep * (1 + tpb / 10000) ≤ tk.price
    · rw [if_pos htp, if_pos htp]
    · have hsl : tk.price ≤ ep * (1 - slb / 10000) := hcross.resolve_left htp
      rw [if_neg htp, if_pos hsl, if_neg htp]
  · intro rows start h ep tpb slb pre post tk hdrop hpre htk hcross
    simp only [classify_path_short, hdrop, classifyLoopShort_append pre (tk :: post) hpre]
    simp only [classifyLoopShort, if_neg (not_lt.mpr htk)]
    by_cases htp : tk.price ≤ ep * (1 - tpb / 10000)
    · rw [if_pos htp, if_pos htp]
    · have hsl : ep * (1 + slb / 10000) ≤ tk.price := hcross.resolve_left htp
      rw [if_neg htp, if_pos hsl, if_neg htp]

/-- Witness for C7, the spec's Example 3: ticks
`(1000,100.2),(2000,101.1),(3000,99.0)` with `tp=101`, `sl=99.5` give TP at
`(2000, 101.1)` on the long side; the same tick hits the short side's SL
barrier at `100.5`, so the short label is SL at the same tick. -/
theorem barrier_tp_priority_witness :
    (([⟨1000, 501/5⟩, ⟨2000, 1011/10⟩, ⟨3000, 99⟩] : List Tick).drop
        (bisectLeft (([⟨1000, 501/5⟩, ⟨2000, 1011/10⟩, ⟨3000, 99⟩] : List Tick).map
          (fun r => r.time)) 0) =
      [⟨1000, 501/5⟩] ++ (⟨2000, 1011/10⟩ : Tick) :: [⟨3000, 99⟩]) ∧
    classify_path ([⟨1000, 501/5⟩, ⟨2000, 1011/10⟩, ⟨3000, 99⟩] : List Tick)
      0 10000 100 100 50 =
      (if (100 : ℚ) * (1 + 100 / 10000) ≤ (1011/10 : ℚ) then BLabel.TP else BLabel.SL,
        2000, 1011/10) ∧
    classify_path_short ([⟨1000, 501/5⟩, ⟨2000, 1011/10⟩, ⟨3000, 99⟩] : List Tick)
      0 10000 100 100 50 =
      (if (1011/10 : ℚ) ≤ (100 : ℚ) * (1 - 100 / 10000) then BLabel.TP else BLabel.SL,
        2000, 1011/10) := by
  have hdrop :
      ([⟨1000, 501/5⟩, ⟨2000, 1011/10⟩, ⟨3000, 99⟩] : List Tick).drop
        (bisectLeft (([⟨1000, 501/5⟩, ⟨2000, 1011/10⟩, ⟨3000, 99⟩] : List Tick).map
          (fun r => r.time)) 0) =
      [⟨1000, 501/5⟩] ++ (⟨2000, 1011/10⟩ : Tick) :: [⟨3000, 99⟩] := rfl
  have hpreL : ∀ x ∈ ([⟨1000, 501/5⟩] : List Tick),
      x.time ≤ (0 : Int) + 10000 ∧ x.price < 100 * (1 + 100 / 10000) ∧
      100 * (1 - 50 / 10000) < x.price := by
    intro x hx
    rcases List.mem_cons.mp hx with h1 | h2
    · subst h1
      refine ⟨by norm_num, by norm_num, by norm_num⟩
    · simp at h2
  have hpreS : ∀ x ∈ ([⟨1000, 501/5⟩] : List Tick),
      x.time ≤ (0 : Int) + 10000 ∧ 100 * (1 - 100 / 10000) < x.price ∧
      x.price < 100 * (1 + 50 / 10000) := by
    intro x hx
    rcases List.mem_cons.mp hx with h1 | h2
    · subst h1
      refine ⟨by norm_num, by norm_num, by norm_num⟩
    · simp at h2
  refine ⟨hdrop, ?_, ?_⟩
  · exact barrier_tp_priority.1 _ 0 10000 100 100 50 _ _ _ hdrop hpreL
      (by norm_num) (Or.inl (by norm_num))
  · exact barrier_tp_priority.2 _ 0 10000 100 100 50 _ _ _ hdrop hpreS
      (by norm_num) (Or.inr (by norm_num))

/-- C10: on a time-sorted tick sequence with a non-negative horizon, both
barrier classifications return an exit time inside
`[entryTime, entryTime + horizonMs]`, and a TP or SL label's
`(exitTime, exitPrice)` pair is a tick of the sequence (necessarily inside
that window, by the bounds). -/
theorem barrier_exit_in_window (rows : List Tick) (start h : Int) (ep tpb slb : ℚ)
    (hs : List.Pairwise (fun a b => a.time ≤ b.time) rows) (hh : 0 ≤ h) :
    (∀ lab et px, classify_path rows start h ep tpb slb = (lab, et, px) →
      start ≤ et ∧ et ≤ start + h ∧
      ((lab = BLabel.TP ∨ lab = BLabel.SL) → (⟨et, px⟩ : Tick) ∈ rows)) ∧
    (∀ lab et px, classify_path_short rows start h ep tpb slb = (lab, et, px) →
      start ≤ et ∧ et ≤ start + h ∧
      ((lab = BLabel.TP ∨ lab = BLabel.SL) → (⟨et, px⟩ : Tick) ∈ rows)) := by
  constructor
  · intro lab et px hcp
    simp only [classify_path] at hcp
    split at hcp
    · rename_i res heq
      subst hcp
      obtain ⟨hmem, hle, _⟩ := classifyLoop_eq_some _ lab et px heq
      have hstart : start ≤ et :=
        drop_bisectLeft_ge (fun r => r.time) rows start hs ⟨et, px⟩ hmem
      exact ⟨hstart, hle, fun _ => List.drop_subset _ _ hmem⟩
    · simp only [Prod.mk.injEq] at hcp
      obtain ⟨h1, h2, _h3⟩ := hcp
      subst h2
      refine ⟨le_add_of_nonneg_right hh, le_refl _, ?_⟩
      intro hor
      rw [← h1] at hor
      rcases hor with hx | hx <;> exact absurd hx (by simp)
  · intro lab et px hcp
    simp only [classify_path_short] at hcp
    split at hcp
    · rename_i res heq
      subst hcp
      obtain ⟨hmem, hle, _⟩ := classifyLoopShort_eq_some _ lab et px heq
      have hstart : start ≤ et :=
        drop_bisectLeft_ge (fun r => r.time) rows start hs ⟨et, px⟩ hmem
      exact ⟨hstart, hle, fun _ => List.drop_subset _ _ hmem⟩
    · simp only [Prod.mk.injEq] at hcp
      obtain ⟨h1, h2, _h3⟩ := hcp
      subst h2
      refine ⟨le_add_of_nonneg_right hh, le_refl _, ?_⟩
      intro hor
      rw [← h1] at hor
      rcases hor with hx | hx <;> exact absurd hx (by simp)

/-- Witness for C10: a single tick at `(1000, 101)` hits TP long and SL short;
both exits are the tick itself, inside the window. -/
theorem barrier_exit_in_window_witness :
    List.Pairwise (fun a b => a.time ≤ b.time) ([⟨1000, 101⟩] : List Tick) ∧
    (0 : Int) ≤ 10000 ∧
    classify_path ([⟨1000, 101⟩] : List Tick) 0 10000 100 100 50 =
      (BLabel.TP, 1000, 101) ∧
    ((0 : Int) ≤ 1000 ∧ (1000 : Int) ≤ 0 + 10000 ∧
      ((BLabel.TP = BLabel.TP ∨ BLabel.TP = BLabel.SL) →
        (⟨1000, 101⟩ : Tick) ∈ ([⟨1000, 101⟩] : List Tick))) ∧
    classify_path_short ([⟨1000, 101⟩] : List Tick) 0 10000 100 100 50 =
      (BLabel.SL, 1000, 101) ∧
    ((0 : Int) ≤ 1000 ∧ (1000 : Int) ≤ 0 + 10000 ∧
      ((BLabel.SL = BLabel.TP ∨ BLabel.SL = BLabel.SL) →
        (⟨1000, 101⟩ : Tick) ∈ ([⟨1000, 101⟩] : List Tick))) := by
  have hs : List.Pairwise (fun a b => a.time ≤ b.time) ([⟨1000, 101⟩] : List Tick) := by
    decide
  have heqL : classify_path ([⟨1000, 101⟩] : List Tick) 0 10000 100 100 50 =
      (BLabel.TP, 1000, 101) := by
    norm_num [classify_path, classifyLoop, bisectLeft]
  have heqS : classify_path_short ([⟨1000, 101⟩] : List Tick) 0 10000 100 100 50 =
      (BLabel.SL, 1000, 101) := by
    norm_num [classify_path_short, classifyLoopShort, bisectLeft]
  exact ⟨hs, by norm_num, heqL,
    (barrier_exit_in_window ([⟨1000, 101⟩] : List Tick) 0 10000 100 100 50 hs
      (by norm_num)).1 BLabel.TP 1000 101 heqL,
    heqS,
    (barrier_exit_in_window ([⟨1000, 101⟩] : List Tick) 0 10000 100 100 50 hs
      (by norm_num)).2 BLabel.SL 1000 101 heqS⟩

/-- Every emitted label carries its row's symbol, entry time and horizon as
its key fields. -/
theorem labelFor_key {cfg : LabelerCfg} {symbol : String} {rows : List SnapRow}
    {row : SnapRow} {h : Int} {lbl : ReturnLabel}
    (hl : labelFor cfg symbol rows row h = some lbl) :
    lbl.symbol = symbol ∧ lbl.entryTime = row.time ∧ lbl.horizonMs = h := by
  obtain ⟨target, _, _, _, _, hlbl⟩ := labelFor_eq_some hl
  subst hlbl
  exact ⟨rfl, rfl, rfl⟩

/-- C6 counterexample: two distinct snapshots with the same symbol and the
same time (prices 100 and 101 at t=0) each emit their own label, so the
return labeler's output holds two ReturnLabels with the same
(symbol, entryTime, horizonMs) triple — the triple is not a unique key of
the output. -/
theorem return_label_triple_not_unique :
    ¬ List.Pairwise
      (fun a b =>
        ¬(a.symbol = b.symbol ∧ a.entryTime = b.entryTime ∧ a.horizonMs = b.horizonMs))
      (processSymbol ⟨1/10, 0, false, false⟩ "X" [60000]
        [⟨0, 100, none, none, none⟩, ⟨0, 101, none, none, none⟩,
          ⟨60000, 102, none, none, none⟩]) := by
  have h1 :
      labelFor ⟨1/10, 0, false, false⟩ "X"
        [⟨0, 100, none, none, none⟩, ⟨0, 101, none, none, none⟩,
          ⟨60000, 102, none, none, none⟩] ⟨0, 100, none, none, none⟩ 60000 =
      some (labelEmit ⟨1/10, 0, false, false⟩ "X" ⟨0, 100, none, none, none⟩
        ⟨60000, 102, none, none, none⟩ 60000) := by
    apply labelFor_eq_some_of
    · rfl
    · show (60000 : Int) - (0 + 60000) ≤ pyInt ((60000 : ℚ) * (1/10 : ℚ))
      rw [pyInt_of_nonneg (by norm_num)]
      norm_num
    · norm_num
    · norm_num
    · simp
  have h2 :
      labelFor ⟨1/10, 0, false, false⟩ "X"
        [⟨0, 100, none, none, none⟩, ⟨0, 101, none, none, none⟩,
          ⟨60000, 102, none, none, none⟩] ⟨0, 101, none, none, none⟩ 60000 =
      some (labelEmit ⟨1/10, 0, false, false⟩ "X" ⟨0, 101, none, none, none⟩
        ⟨60000, 102, none, none, none⟩ 60000) := by
    apply labelFor_eq_some_of
    · rfl
    · show (60000 : Int) - (0 + 60000) ≤ pyInt ((60000 : ℚ) * (1/10 : ℚ))
      rw [pyInt_of_nonneg (by norm_num)]
      norm_num
    · norm_num
    · norm_num
    · simp
  have h3 :
      labelFor ⟨1/10, 0, false, false⟩ "X"
        [⟨0, 100, none, none, none⟩, ⟨0, 101, none, none, none⟩,
          ⟨60000, 102, none, none, none⟩] ⟨60000, 102, none, none, none⟩ 60000 =
      none := labelFor_eq_none_of_reject.1 rfl
  have hps :
      processSymbol ⟨1/10, 0, false, false⟩ "X" [60000]
        [⟨0, 100, none, none, none⟩, ⟨0, 101, none, none, none⟩,
          ⟨60000, 102, none, none, none⟩] =
      [labelEmit ⟨1/10, 0, false, false⟩ "X" ⟨0, 100, none, none, none⟩
        ⟨60000, 102, none, none, none⟩ 60000,
       labelEmit ⟨1/10, 0, false, false⟩ "X" ⟨0, 101, none, none, none⟩
        ⟨60000, 102, none, none, none⟩ 60000] := by
    simp only [processSymbol, List.flatMap_cons, List.flatMap_nil, List.filterMap_cons,
      List.filterMap_nil, h1, h2, h3, List.append_nil, List.nil_append, List.cons_append]
  rw [hps]
  intro hpw
  exact (List.pairwise_cons.mp hpw).1 _ (List.mem_cons_self _ _) ⟨rfl, rfl, rfl⟩

/-- C6 amended: when the symbol's snapshot rows have pairwise-distinct times
and the horizon list is duplicate-free (as labeler.py main's sorted-set
construction guarantees), the labeler's output for that symbol has at most
one ReturnLabel per (symbol, entryTime, horizonMs) triple. -/
theorem return_label_triple_unique_amended (cfg : LabelerCfg) (symbol : String)
    (horizons : List Int) (rows : List SnapRow)
    (hr : List.Pairwise (fun a b => a.time ≠ b.time) rows)
    (hh : horizons.Nodup) :
    List.Pairwise
      (fun a b =>
        ¬(a.symbol = b.symbol ∧ a.entryTime = b.entryTime ∧ a.horizonMs = b.horizonMs))
      (processSymbol cfg symbol horizons rows) := by
  unfold processSymbol
  rw [List.pairwise_flatMap]
  constructor
  · intro row _
    rw [List.pairwise_filterMap]
    refine hh.imp ?_
    intro h1 h2 hne b hb b2 hb2 hkey
    have k1 := labelFor_key (Option.mem_def.mp hb)
    have k2 := labelFor_key (Option.mem_def.mp hb2)
    apply hne
    rw [← k1.2.2, ← k2.2.2]
    exact hkey.2.2
  · refine hr.imp ?_
    intro r1 r2 hne x hx y hy hkey
    obtain ⟨a1, _, hx1⟩ := List.mem_filterMap.mp hx
    obtain ⟨a2, _, hy1⟩ := List.mem_filterMap.mp hy
    have k1 := labelFor_key hx1
    have k2 := labelFor_key hy1
    apply hne
    rw [← k1.2.1, ← k2.2.1]
    exact hkey.2.1

/-- Witness for the amended C6: distinct snapshot times and a singleton
horizon list give a uniquely keyed output. -/
theorem return_label_triple_unique_amended_witness :
    List.Pairwise (fun a b => a.time ≠ b.time)
      ([⟨0, 100, none, none, none⟩, ⟨60000, 102, none, none, none⟩] : List SnapRow) ∧
    ([60000] : List Int).Nodup ∧
    List.Pairwise
      (fun a b =>
        ¬(a.symbol = b.symbol ∧ a.entryTime = b.entryTime ∧ a.horizonMs = b.horizonMs))
      (processSymbol ⟨1/10, 0, false, false⟩ "X" [60000]
        [⟨0, 100, none, none, none⟩, ⟨60000, 102, none, none, none⟩]) := by
  refine ⟨?_, ?_, ?_⟩
  · decide
  · decide
  · exact return_label_triple_unique_amended ⟨1/10, 0, false, false⟩ "X" [60000]
      [⟨0, 100, none, none, none⟩, ⟨60000, 102, none, none, none⟩]
      (by decide) (by decide)

/-- C8: a context symbol whose anchor observation is stale
(`entryTime - anchor.time > maxLag`) contributes exactly its age feature and
nothing else (no price, trend, or volatility feature); and a volatility
feature is only ever emitted when its window slice has at least 4 points and
at least 3 valid bar-to-bar returns — failing preconditions omit the
feature entirely rather than emitting a placeholder. -/
theorem context_features_gates :
    (∀ (sym : String) (times : List Int) (prices : List ℚ) (entry : Int)
        (windows : List Int) (maxLag : Int) (anchor : Int),
      1 ≤ bisectRight times entry →
      times.get? (bisectRight times entry - 1) = some anchor →
      maxLag < entry - anchor →
      contextFeaturesFor sym times prices entry windows maxLag =
        [(FeatKey.age sym, ((entry - anchor : Int) : ℚ))]) ∧
    (∀ (sym : String) (times : List Int) (prices : List ℚ) (idx : Nat) (ep : ℚ)
        (entry w : Int) (v : ℚ),
      (FeatKey.vol sym w, v) ∈ windowFeatures sym times prices idx ep entry w →
      4 ≤ ((prices.take (idx + 1)).drop (bisectLeft times (entry - w))).length ∧
      3 ≤ (barReturns ((prices.take (idx + 1)).drop (bisectLeft times (entry - w)))).length) := by
  constructor
  · intro sym times prices entry windows maxLag anchor hr1 hanchor hstale
    have hne : times ≠ [] := by
      intro he
      rw [he] at hr1
      exact absurd hr1 (by simp [bisectRight])
    have hr0 : bisectRight times entry ≠ 0 := Nat.one_le_iff_ne_zero.mp hr1
    simp only [contextFeaturesFor, if_neg hne, if_neg hr0, hanchor, if_pos hstale]
  · intro sym times prices idx ep entry w v hmem
    simp only [windowFeatures] at hmem
    by_cases hidx : idx < bisectLeft times (entry - w)
    · rw [if_pos hidx] at hmem
      exact absurd hmem (by simp)
    · rw [if_neg hidx] at hmem
      rcases hget : prices.get? (bisectLeft times (entry - w)) with _ | start_price
      · rw [hget] at hmem
        exact absurd hmem (by simp)
      · simp only [hget] at hmem
        by_cases hsp : start_price ≤ 0
        · rw [if_pos hsp] at hmem
          exact absurd hmem (by simp)
        · rw [if_neg hsp] at hmem
          rcases List.mem_cons.mp hmem with heq | htail
          · exact absurd heq (by simp)
          · by_cases h4 : ((prices.take (idx + 1)).drop (bisectLeft times (entry - w))).length < 4
            · rw [if_pos h4] at htail
              exact absurd htail (by simp)
            · rw [if_neg h4] at htail
              by_cases h3 : (barReturns
                  ((prices.take (idx + 1)).drop (bisectLeft times (entry - w)))).length < 3
              · rw [if_pos h3] at htail
                exact absurd htail (by simp)
              · exact ⟨not_lt.mp h4, not_lt.mp h3⟩

/-- Witness for C8: a stale anchor yields only the age feature; a 4-point
window of constant prices yields a volatility feature, whose preconditions
the theorem then confirms. -/
theorem context_features_gates_witness :
    (1 ≤ bisectRight [0] 1000000 ∧
      ([0] : List Int).get? (bisectRight [0] 1000000 - 1) = some 0 ∧
      (300000 : Int) < 1000000 - 0 ∧
      contextFeaturesFor "B" [0] [100] 1000000 [] 300000 =
        [(FeatKey.age "B", ((1000000 - 0 : Int) : ℚ))]) ∧
    ((FeatKey.vol "B" 60, (0 : ℚ)) ∈
        windowFeatures "B" [0, 10, 20, 30] [1, 1, 1, 1] 3 1 30 60 ∧
      4 ≤ ((([1, 1, 1, 1] : List ℚ).take (3 + 1)).drop (bisectLeft [0, 10, 20, 30] (30 - 60))).length ∧
      3 ≤ (barReturns ((([1, 1, 1, 1] : List ℚ).take (3 + 1)).drop
        (bisectLeft [0, 10, 20, 30] (30 - 60)))).length) := by
  have hmem : (FeatKey.vol "B" 60, (0 : ℚ)) ∈
      windowFeatures "B" [0, 10, 20, 30] [1, 1, 1, 1] 3 1 30 60 := by
    norm_num [windowFeatures, barReturns, bisectLeft]
  refine ⟨⟨by decide, rfl, by decide, ?_⟩, hmem, ?_⟩
  · exact context_features_gates.1 "B" [0] [100] 1000000 [] 300000 0
      (by decide) rfl (by decide)
  · exact context_features_gates.2 "B" [0, 10, 20, 30] [1, 1, 1, 1] 3 1 30 60 0 hmem

/-- C9: a labeling run with no snapshot input, a barrier run with a
non-positive horizon, and a barrier run with no raw events all abort with a
fatal error before any output exists (the `Except.error` result carries no
label list; in the sources each `SystemExit` is raised before
`open(output, "w")`). -/
theorem config_errors_abort (cfg : LabelerCfg) (horizons : List Int)
    (hsec : Int) (tpb slb : ℚ) (side : Side)
    (snapFiles eventFiles : List (String × List Tick))
    (lfiles : List (String × List SnapRow)) :
    (lfiles = [] → labelerMain cfg horizons lfiles = Except.error "No snapshots found.") ∧
    (hsec ≤ 0 →
      barrierMain hsec tpb slb side snapFiles eventFiles =
        Except.error "horizon-sec must be > 0") ∧
    (0 < hsec → snapFiles = [] →
      barrierMain hsec tpb slb side snapFiles eventFiles =
        Except.error "No snapshots found.") ∧
    (0 < hsec → snapFiles ≠ [] → eventFiles = [] →
      barrierMain hsec tpb slb side snapFiles eventFiles =
        Except.error "No raw events found for selected event type.") := by
  refine ⟨?_, ?_, ?_, ?_⟩
  · intro he
    rw [he]
    rfl
  · intro hle
    have hms : hsec * 1000 ≤ 0 := by omega
    simp only [barrierMain, if_pos hms]
  · intro hpos he
    have hms : ¬(hsec * 1000 ≤ 0) := by omega
    rw [he]
    simp only [barrierMain, if_neg hms]
    rfl
  · intro hpos hne he
    have hms : ¬(hsec * 1000 ≤ 0) := by omega
    rw [he]
    simp only [barrierMain, if_neg hms, if_neg hne]
    rfl

/-- Witness for C9 at concrete empty inputs and a zero horizon. -/
theorem config_errors_abort_witness :
    labelerMain ⟨1/10, 0, false, false⟩ [60000] [] =
      Except.error "No snapshots found." ∧
    barrierMain 0 12 8 Side.both [] [] = Except.error "horizon-sec must be > 0" ∧
    barrierMain 30 12 8 Side.both [] [] = Except.error "No snapshots found." ∧
    barrierMain 30 12 8 Side.both [("X", [⟨0, 100⟩])] [] =
      Except.error "No raw events found for selected event type." := by
  refine ⟨?_, ?_, ?_, ?_⟩
  · exact (config_errors_abort ⟨1/10, 0, false, false⟩ [60000] 0 12 8 Side.both
      [] [] []).1 rfl
  · exact (config_errors_abort ⟨1/10, 0, false, false⟩ [60000] 0 12 8 Side.both
      [] [] []).2.1 (by norm_num)
  · exact (config_errors_abort ⟨1/10, 0, false, false⟩ [60000] 30 12 8 Side.both
      [] [] []).2.2.1 (by norm_num) rfl
  · exact (config_errors_abort ⟨1/10, 0, false, false⟩ [60000] 30 12 8 Side.both
      [("X", [⟨0, 100⟩])] [] []).2.2.2 (by norm_num) (by simp) rfl

/-- A rejected row leaves the watermark map unchanged. -/
theorem btStep_skip {p : BTParams} {le le2 : List (String × Int)} {row : BTRow}
    (h : btStep p le row = (le2, none)) : le2 = le := by
  obtain ⟨osym, oet, ohz, opred, lr, sr, rr⟩ := row
  cases osym with
  | none => exact (congrArg Prod.fst h).symm
  | some s =>
    cases oet with
    | none => exact (congrArg Prod.fst h).symm
    | some t =>
      cases ohz with
      | none => exact (congrArg Prod.fst h).symm
      | some hz =>
        cases opred with
        | none => exact (congrArg Prod.fst h).symm
        | some pred =>
          simp only [btStep] at h
          split_ifs at h with h1 h2 h3
          · exact (congrArg Prod.fst h).symm
          · exact (congrArg Prod.fst h).symm
          · exact (congrArg Prod.fst h).symm
          · split at h
            · exact (congrArg Prod.fst h).symm
            · split at h
              · exact (congrArg Prod.fst h).symm
              · exact absurd (congrArg Prod.snd h) (by simp)

/-- An accepted row records a trade whose entry is at or after the symbol's
current watermark, whose exit is strictly later than its entry, and pushes
`(symbol, exitTime)` onto the watermark map. -/
theorem btStep_emit {p : BTParams} {le le2 : List (String × Int)} {row : BTRow} {tr : Trade}
    (h : btStep p le row = (le2, some tr)) :
    le2 = (tr.symbol, tr.exitTime) :: le ∧
    tr.entryTime < tr.exitTime ∧
    (∀ e, lookupKey tr.symbol le = some e → e ≤ tr.entryTime) ∧
    row.entryTime = some tr.entryTime := by
  obtain ⟨osym, oet, ohz, opred, lr, sr, rr⟩ := row
  cases osym with
  | none => exact Option.noConfusion (congrArg Prod.snd h)
  | some s =>
    cases oet with
    | none => exact Option.noConfusion (congrArg Prod.snd h)
    | some t =>
      cases ohz with
      | none => exact Option.noConfusion (congrArg Prod.snd h)
      | some hz =>
        cases opred with
        | none => exact Option.noConfusion (congrArg Prod.snd h)
        | some pred =>
          simp only [btStep] at h
          split_ifs at h with h1 h2 h3
          · exact absurd (congrArg Prod.snd h) (by simp)
          · exact absurd (congrArg Prod.snd h) (by simp)
          · exact absurd (congrArg Prod.snd h) (by simp)
          · split at h
            · exact absurd (congrArg Prod.snd h) (by simp)
            · rename_i act hact
              split at h
              · exact absurd (congrArg Prod.snd h) (by simp)
              · rename_i realized hreal
                have hfst := congrArg Prod.fst h
                have hsnd := congrArg Prod.snd h
                have htr : tr = ⟨s, t, t + hz, act, pred,
                    realized - p.extraCostBps / 100⟩ := (Option.some.inj hsnd).symm
                subst htr
                refine ⟨hfst.symm, by show t < t + hz; omega, ?_, rfl⟩
                intro e he
                have he2 : lookupKey s le = some e := he
                rw [he2] at h3
                simp only [decide_eq_true_eq] at h3
                show e ≤ t
                omega

/-- Every trade the backtest loop records with watermark state `le` has its
entry time at or after that symbol's watermark entry in `le`. -/
theorem runBT_watermark (p : BTParams) :
    ∀ (rows : List BTRow) (le : List (String × Int)) (tr : Trade),
      tr ∈ runBT p rows le → ∀ e, lookupKey tr.symbol le = some e → e ≤ tr.entryTime := by
  intro rows
  induction rows with
  | nil => intro le tr htr; simp [runBT] at htr
  | cons r rs ih =>
    intro le tr htr e he
    simp only [runBT] at htr
    rcases hstep : btStep p le r with ⟨le2, otr⟩
    rw [hstep] at htr
    cases otr with
    | none =>
      have hle := btStep_skip hstep
      subst hle
      exact ih le2 tr htr e he
    | some tr0 =>
      obtain ⟨hle2, hlt0, hwm, _⟩ := btStep_emit hstep
      rcases List.mem_cons.mp htr with rfl | hmem
      · exact hwm e he
      · by_cases hsy : tr.symbol = tr0.symbol
        · have hlk2 : lookupKey tr.symbol le2 = some tr0.exitTime := by
            rw [hle2]
            simp only [lookupKey, if_pos hsy]
          have h1 := ih le2 tr hmem tr0.exitTime hlk2
          rw [hsy] at he
          have h2 : e ≤ tr0.entryTime := hwm e he
          omega
        · have hlk2 : lookupKey tr.symbol le2 = lookupKey tr.symbol le := by
            rw [hle2]
            simp only [lookupKey, if_neg hsy]
          refine ih le2 tr hmem e ?_
          rw [hlk2]
          exact he

/-- In recording order, a same-symbol trade recorded later starts at or after
the earlier trade's exit. -/
theorem runBT_nonoverlap (p : BTParams) :
    ∀ (rows : List BTRow) (le : List (String × Int)),
      List.Pairwise (fun A B => A.symbol = B.symbol → A.exitTime ≤ B.entryTime)
        (runBT p rows le) := by
  intro rows
  induction rows with
  | nil => intro le; simp [runBT]
  | cons r rs ih =>
    intro le
    simp only [runBT]
    rcases hstep : btStep p le r with ⟨le2, otr⟩
    cases otr with
    | none => exact ih le2
    | some tr0 =>
      show List.Pairwise _ (tr0 :: runBT p rs le2)
      refine List.pairwise_cons.mpr ⟨?_, ih le2⟩
      intro B hB hsym
      obtain ⟨hle2, _, _, _⟩ := btStep_emit hstep
      refine runBT_watermark p rs le2 B hB tr0.exitTime ?_
      rw [hle2]
      simp only [lookupKey, if_pos hsym.symm]

/-- Every recorded trade's entry time is the entry time of some input row. -/
theorem runBT_from_rows (p : BTParams) :
    ∀ (rows : List BTRow) (le : List (String × Int)) (tr : Trade),
      tr ∈ runBT p rows le → ∃ r ∈ rows, r.entryTime = some tr.entryTime := by
  intro rows
  induction rows with
  | nil => intro le tr htr; simp [runBT] at htr
  | cons r rs ih =>
    intro le tr htr
    simp only [runBT] at htr
    rcases hstep : btStep p le r with ⟨le2, otr⟩
    rw [hstep] at htr
    cases otr with
    | none =>
      obtain ⟨r2, hr2, heq⟩ := ih le2 tr htr
      exact ⟨r2, List.mem_cons_of_mem r hr2, heq⟩
    | some tr0 =>
      rcases List.mem_cons.mp htr with rfl | hmem
      · obtain ⟨_, _, _, het⟩ := btStep_emit hstep
        exact ⟨r, List.mem_cons_self r rs, het⟩
      · obtain ⟨r2, hr2, heq⟩ := ih le2 tr hmem
        exact ⟨r2, List.mem_cons_of_mem r hr2, heq⟩

/-- On an input sorted by entry time, recorded trades come out with
non-decreasing entry times. -/
theorem runBT_entry_sorted (p : BTParams) :
    ∀ (rows : List BTRow) (le : List (String × Int)),
      List.Pairwise (fun a b => entryLE a b = true) rows →
      List.Pairwise (fun A B => A.entryTime ≤ B.entryTime) (runBT p rows le) := by
  intro rows
  induction rows with
  | nil => intro le _; simp [runBT]
  | cons r rs ih =>
    intro le hs
    obtain ⟨hhead, htail⟩ := List.pairwise_cons.mp hs
    simp only [runBT]
    rcases hstep : btStep p le r with ⟨le2, otr⟩
    cases otr with
    | none => exact ih le2 htail
    | some tr0 =>
      show List.Pairwise _ (tr0 :: runBT p rs le2)
      refine List.pairwise_cons.mpr ⟨?_, ih le2 htail⟩
      intro B hB
      obtain ⟨r2, hr2, heq2⟩ := runBT_from_rows p rs le2 B hB
      obtain ⟨_, _, _, het⟩ := btStep_emit hstep
      have hle := hhead r2 hr2
      rw [entryLE, het, heq2] at hle
      simp only [decide_eq_true_eq] at hle
      exact hle

/-- C1: on an input row sequence ordered by entryTime, any two recorded
trades for the same symbol with `A.entryTime < B.entryTime` satisfy
`B.entryTime ≥ A.exitTime` (where `exitTime = entryTime + horizonMs`); and a
row whose entry time is strictly below its symbol's `lastExit` watermark is
rejected, recording no trade and changing no state. -/
theorem backtest_non_overlap (p : BTParams) (rows : List BTRow)
    (hs : List.Pairwise (fun a b => entryLE a b = true) rows) :
    (∀ (i j : Fin (run_backtest p rows).length),
      ((run_backtest p rows).get i).symbol = ((run_backtest p rows).get j).symbol →
      ((run_backtest p rows).get i).entryTime < ((run_backtest p rows).get j).entryTime →
      ((run_backtest p rows).get i).exitTime ≤ ((run_backtest p rows).get j).entryTime) ∧
    (∀ (le : List (String × Int)) (row : BTRow) (s : String) (t e : Int),
      row.symbol = some s → row.entryTime = some t → lookupKey s le = some e → t < e →
      btStep p le row = (le, none)) := by
  constructor
  · intro i j hsym hlt
    have hB := runBT_nonoverlap p rows []
    have hC := runBT_entry_sorted p rows [] hs
    rcases lt_trichotomy (i : Nat) (j : Nat) with hij | hij | hij
    · exact List.pairwise_iff_get.mp hB i j hij hsym
    · have : i = j := Fin.ext hij
      subst this
      exact absurd hlt (lt_irrefl _)
    · have hle := List.pairwise_iff_get.mp hC j i hij
      exact absurd hlt (not_lt.mpr hle)
  · intro le row s t e hsym hteq hlook hlt
    obtain ⟨osym, oet, ohz, opred, lr, sr, rr⟩ := row
    have hsym2 : osym = some s := hsym
    have hteq2 : oet = some t := hteq
    subst hsym2
    subst hteq2
    cases ohz with
    | none => rfl
    | some hz =>
      cases opred with
      | none => rfl
      | some pred =>
        simp only [btStep]
        by_cases hse : s = ""
        · rw [if_pos hse]
        · rw [if_neg hse]
          by_cases hhz : hz ≤ 0
          · rw [if_pos hhz]
          · rw [if_neg hhz]
            have hcond :
                (match lookupKey s le with
                  | some e2 => decide (t < e2)
                  | none => false) = true := by
              rw [hlook]
              exact decide_eq_true hlt
            rw [if_pos hcond]

/-- Witness for C1, the spec's Example 4: with long threshold 0.5, row 2
(entry 500) overlaps row 1's position on symbol A (exit 1000); the sorted
input yields the non-overlap conclusions and the rejection rule. -/
theorem backtest_non_overlap_witness :
    List.Pairwise (fun a b => entryLE a b = true)
      ([⟨some "A", some 0, some 1000, some (3/5), some 1, none, none⟩,
        ⟨some "A", some 500, some 1000, some (9/10), some 2, none, none⟩] : List BTRow) ∧
    ((∀ (i j : Fin (run_backtest ⟨1/2, 0, 0, true⟩
          [⟨some "A", some 0, some 1000, some (3/5), some 1, none, none⟩,
            ⟨some "A", some 500, some 1000, some (9/10), some 2, none, none⟩]).length),
        ((run_backtest ⟨1/2, 0, 0, true⟩
          [⟨some "A", some 0, some 1000, some (3/5), some 1, none, none⟩,
            ⟨some "A", some 500, some 1000, some (9/10), some 2, none, none⟩]).get i).symbol =
          ((run_backtest ⟨1/2, 0, 0, true⟩
            [⟨some "A", some 0, some 1000, some (3/5), some 1, none, none⟩,
              ⟨some "A", some 500, some 1000, some (9/10), some 2, none, none⟩]).get j).symbol →
        ((run_backtest ⟨1/2, 0, 0, true⟩
          [⟨some "A", some 0, some 1000, some (3/5), some 1, none, none⟩,
            ⟨some "A", some 500, some 1000, some (9/10), some 2, none, none⟩]).get i).entryTime <
          ((run_backtest ⟨1/2, 0, 0, true⟩
            [⟨some "A", some 0, some 1000, some (3/5), some 1, none, none⟩,
              ⟨some "A", some 500, some 1000, some (9/10), some 2, none, none⟩]).get j).entryTime →
        ((run_backtest ⟨1/2, 0, 0, true⟩
          [⟨some "A", some 0, some 1000, some (3/5), some 1, none, none⟩,
            ⟨some "A", some 500, some 1000, some (9/10), some 2, none, none⟩]).get i).exitTime ≤
          ((run_backtest ⟨1/2, 0, 0, true⟩
            [⟨some "A", some 0, some 1000, some (3/5), some 1, none, none⟩,
              ⟨some "A", some 500, some 1000, some (9/10), some 2, none, none⟩]).get j).entryTime) ∧
      (∀ (le : List (String × Int)) (row : BTRow) (s : String) (t e : Int),
        row.symbol = some s → row.entryTime = some t → lookupKey s le = some e → t < e →
        btStep (⟨1/2, 0, 0, true⟩ : BTParams) le row = (le, none))) := by
  have hs : List.Pairwise (fun a b => entryLE a b = true)
      ([⟨some "A", some 0, some 1000, some (3/5), some 1, none, none⟩,
        ⟨some "A", some 500, some 1000, some (9/10), some 2, none, none⟩] : List BTRow) := by
    decide
  exact ⟨hs, backtest_non_overlap ⟨1/2, 0, 0, true⟩
    [⟨some "A", some 0, some 1000, some (3/5), some 1, none, none⟩,
      ⟨some "A", some 500, some 1000, some (9/10), some 2, none, none⟩] hs⟩

end PersonalML
